import Mathlib

/-!
mesos-module-libstorage: mount descriptors, mount identity and the claim registry.

A shallow embedding of `isolator/interface.hpp` (the `Builder` of `ExternalMount`
descriptors) and of `isolator/libstorage_isolator.hpp` (`getExternalMountId`, the
prohibited character table, the registry `infos`), followed by the properties
proved about them.

A `std::string` is a sequence of `char`; it is embedded as `List Char`.
`size_t` is a 64-bit word, embedded as a natural number below `2 ^ 64`.
-/

namespace Libstorage

/-- A `std::string`: a finite sequence of characters (it may hold NUL). -/
abbrev Str := List Char

/-! ## interface.hpp -/

/-- The protobuf message `ExternalMount`, with the six fields `Builder::build` sets. -/
structure ExternalMount where
  containerid : Str
  volumedriver : Str
  volumename : Str
  mountpoint : Str
  options : Str
  container_path : Str
deriving DecidableEq, Repr

/-- The private members of `class Builder`. -/
structure Builder where
  containerId : Str
  volumeDriver : Str
  volumeName : Str
  mountPoint : Str
  options : Str
  containerPath : Str
deriving DecidableEq, Repr

/-- The constructor `Builder() {}`: every `std::string` member is default-constructed,
that is empty. -/
def Builder.init : Builder :=
  { containerId := [], volumeDriver := [], volumeName := [], mountPoint := [],
    options := [], containerPath := [] }

/-- The method `Builder::setContainerId`. -/
def Builder.setContainerId (self : Builder) (containerId : Str) : Builder :=
  { self with containerId := containerId }

/-- The method `Builder::setVolumeDriver`. -/
def Builder.setVolumeDriver (self : Builder) (volumeDriver : Str) : Builder :=
  { self with volumeDriver := volumeDriver }

/-- The method `Builder::setVolumeName`. -/
def Builder.setVolumeName (self : Builder) (volumeName : Str) : Builder :=
  { self with volumeName := volumeName }

/-- The method `Builder::setMountPoint`. -/
def Builder.setMountPoint (self : Builder) (mountPoint : Str) : Builder :=
  { self with mountPoint := mountPoint }

/-- The method `Builder::setOptions`. -/
def Builder.setOptions (self : Builder) (options : Str) : Builder :=
  { self with options := options }

/-- The method `Builder::setContainerPath`. -/
def Builder.setContainerPath (self : Builder) (_containerPath : Str) : Builder :=
  { self with containerPath := _containerPath }

/-- The method `Builder::build`: a fresh `ExternalMount` whose six fields are copied
from the members. The method is not `const`, so the Builder after the call is returned
too; the body assigns to no member. -/
def Builder.build (self : Builder) : Builder × ExternalMount :=
  (self,
   { containerid := self.containerId
     volumedriver := self.volumeDriver
     volumename := self.volumeName
     mountpoint := self.mountPoint
     options := self.options
     container_path := self.containerPath })

/-- The six fields of a descriptor. -/
inductive Field where
  | containerId
  | volumeDriver
  | volumeName
  | mountPoint
  | options
  | containerPath
deriving DecidableEq, Repr

/-- One call of a setter of the Builder, with its argument. -/
inductive SetterCall where
  | setContainerId (v : Str)
  | setVolumeDriver (v : Str)
  | setVolumeName (v : Str)
  | setMountPoint (v : Str)
  | setOptions (v : Str)
  | setContainerPath (v : Str)
deriving DecidableEq, Repr

/-- The field a setter call is for. -/
def SetterCall.field : SetterCall → Field
  | .setContainerId _ => .containerId
  | .setVolumeDriver _ => .volumeDriver
  | .setVolumeName _ => .volumeName
  | .setMountPoint _ => .mountPoint
  | .setOptions _ => .options
  | .setContainerPath _ => .containerPath

/-- The argument of a setter call. -/
def SetterCall.arg : SetterCall → Str
  | .setContainerId v => v
  | .setVolumeDriver v => v
  | .setVolumeName v => v
  | .setMountPoint v => v
  | .setOptions v => v
  | .setContainerPath v => v

/-- Perform one setter call on a Builder. -/
def Builder.call (b : Builder) : SetterCall → Builder
  | .setContainerId v => b.setContainerId v
  | .setVolumeDriver v => b.setVolumeDriver v
  | .setVolumeName v => b.setVolumeName v
  | .setMountPoint v => b.setMountPoint v
  | .setOptions v => b.setOptions v
  | .setContainerPath v => b.setContainerPath v

/-- Perform a sequence of setter calls, first call first. -/
def Builder.calls (b : Builder) (cs : List SetterCall) : Builder :=
  cs.foldl Builder.call b

/-- Read a member of the Builder. -/
def Builder.get (b : Builder) : Field → Str
  | .containerId => b.containerId
  | .volumeDriver => b.volumeDriver
  | .volumeName => b.volumeName
  | .mountPoint => b.mountPoint
  | .options => b.options
  | .containerPath => b.containerPath

/-- Read a field of a descriptor. -/
def ExternalMount.get (m : ExternalMount) : Field → Str
  | .containerId => m.containerid
  | .volumeDriver => m.volumedriver
  | .volumeName => m.volumename
  | .mountPoint => m.mountpoint
  | .options => m.options
  | .containerPath => m.container_path

/-- The argument of the last call, in a sequence of calls, of the setter of field `f`;
`none` when that setter is never called. -/
def lastArg (f : Field) (cs : List SetterCall) : Option Str :=
  ((cs.filter (fun c => decide (c.field = f))).getLast?).map SetterCall.arg

/-- All six string fields of a descriptor are non-empty. -/
def ExternalMount.allNonEmpty (m : ExternalMount) : Bool :=
  !m.containerid.isEmpty && !m.volumedriver.isEmpty && !m.volumename.isEmpty &&
  !m.mountpoint.isEmpty && !m.options.isEmpty && !m.container_path.isEmpty

/-! ## libstorage_isolator.hpp: the mount identity -/

/-- The function `std::tolower` in the default "C" locale, which `boost::to_lower_copy`
applies to each character: `A`..`Z` go to `a`..`z`, every other character is kept. -/
def tolower (c : Char) : Char :=
  if 65 ≤ c.toNat ∧ c.toNat ≤ 90 then Char.ofNat (c.toNat + 32) else c

/-- The function `boost::to_lower_copy` on a `std::string`. -/
def to_lower_copy (s : Str) : Str :=
  s.map tolower

/-- The `size_t` value of the string hash `h` (`boost::hash<std::string>`, a library
function that is a parameter here): a 64-bit word. -/
def hashWord (h : Str → Nat) (s : Str) : Nat :=
  h s % 2 ^ 64

/-- The step of `boost::hash_combine` on two `size_t` words:
`seed ^= value + 0x9e3779b9 + (seed << 6) + (seed >> 2)`, with the unsigned 64-bit
wrap-around of `+` and `<<`. The new seed is returned. -/
def hash_combine_impl (seed value : Nat) : Nat :=
  seed ^^^ ((value + 0x9e3779b9 + (seed <<< 6) % 2 ^ 64 + (seed >>> 2)) % 2 ^ 64)

/-- The library function `boost::hash_combine(seed, v)` for a string `v`: the seed is
combined with `hasher(v)`. -/
def hash_combine (h : Str → Nat) (seed : Nat) (v : Str) : Nat :=
  hash_combine_impl seed (hashWord h v)

/-- The method `LibstorageIsolator::getExternalMountId`. -/
def getExternalMountId (h : Str → Nat) (em : ExternalMount) : Nat :=
  let seed := 0
  let s1 := to_lower_copy em.volumedriver
  let s2 := to_lower_copy em.volumename
  let seed := hash_combine h seed s1
  let seed := hash_combine h seed s2
  seed

/-! ## libstorage_isolator.hpp: the prohibited characters -/

/-- The constant `NUM_PROHIBITED`. -/
def NUM_PROHIBITED : Nat := 26

/-- The table `prohibitedchars[NUM_PROHIBITED]`, with the initialiser written at its
declaration. The quote characters, the braces, the backtick, the backslash and the
control characters are given by their codes. -/
def prohibitedchars : List Char :=
  ['%', '/', ':', ';', Char.ofNat 0,
   '<', '>', '|', Char.ofNat 96, '$', Char.ofNat 39,
   '?', '^', '&', ' ', Char.ofNat 123, Char.ofNat 34,
   Char.ofNat 125, '[', ']', Char.ofNat 10, Char.ofNat 9, Char.ofNat 11, Char.ofNat 8,
   Char.ofNat 13, Char.ofNat 92]

/-- Modelled from the spec: the body of `LibstorageIsolator::containsProhibitedChars`
(the header only declares it). It returns true if the string contains at least one
character of the table `prohibitedchars`. -/
def containsProhibitedChars (s : Str) : Bool :=
  s.any (fun c => prohibitedchars.contains c)

/-! ## libstorage_isolator.hpp: the registry and the mount tool -/

/-- A `ContainerID`, by its string value. -/
abbrev ContainerID := Str

/-- The type `containermountmap` of the member `infos`, a
`multihashmap<ContainerID, Owned<ExternalMount>>`: its (key, value) entries, where one
key may have several values. -/
abbrev containermountmap := List (ContainerID × ExternalMount)

/-- The constant `REXRAY_MOUNT_PREFIX`. -/
def REXRAY_MOUNT_PREFIX : Str := "/var/lib/rexray/volumes/".toList

/-- One invocation of the external tool, as the call log keeps it: the operation, the
descriptor it was invoked for and whether the tool exited with status zero. -/
inductive ExecCall where
  | mount (em : ExternalMount) (ok : Bool)
  | unmount (em : ExternalMount) (ok : Bool)
deriving DecidableEq, Repr

/-- The descriptor a call was made for. -/
def ExecCall.descriptor : ExecCall → ExternalMount
  | .mount em _ => em
  | .unmount em _ => em

/-- Whether a call is an invocation of the unmount tool. -/
def ExecCall.isUnmount : ExecCall → Bool
  | .mount _ _ => false
  | .unmount _ _ => true

/-- The external mount and unmount tool (`dvdcli`), which is outside the program:
whether an invocation exits with status zero, as a function of the calls made before
it and of the descriptor. -/
structure MountTool where
  mountOk : List ExecCall → ExternalMount → Bool
  unmountOk : List ExecCall → ExternalMount → Bool

/-- Modelled from the spec: the body of `LibstorageIsolator::mount` (the header only
declares it). The mount tool is invoked, synchronously; on exit status zero the mount
path, prefix followed by volume name, is returned, and otherwise the empty string. The
call is appended to the call log. -/
def mount (tool : MountTool) (calls : List ExecCall) (em : ExternalMount) :
    List ExecCall × Str :=
  if tool.mountOk calls em then
    (calls ++ [ExecCall.mount em true], REXRAY_MOUNT_PREFIX ++ em.volumename)
  else
    (calls ++ [ExecCall.mount em false], [])

/-- Modelled from the spec: the body of `LibstorageIsolator::unmount` (the header only
declares it). The unmount tool is invoked, synchronously, and true is returned on exit
status zero. The call is appended to the call log. -/
def unmount (tool : MountTool) (calls : List ExecCall) (em : ExternalMount) :
    List ExecCall × Bool :=
  (calls ++ [ExecCall.unmount em (tool.unmountOk calls em)], tool.unmountOk calls em)

/-- Modelled from the spec: the registry operation `claims(containerId)`, the
descriptors the container holds, empty if none. -/
def claims (infos : containermountmap) (containerId : ContainerID) : List ExternalMount :=
  (infos.filter (fun e => decide (e.1 = containerId))).map Prod.snd

/-- Modelled from the spec: the distinct containers holding a descriptor with the given
identity, found by scanning the registry. -/
def holders (h : Str → Nat) (infos : containermountmap) (identity : Nat) :
    List ContainerID :=
  ((infos.filter (fun e => decide (getExternalMountId h e.2 = identity))).map Prod.fst).dedup

/-- Modelled from the spec: the registry operation `holderCount(identity)`, the number
of distinct containers holding a descriptor with that identity. -/
def holderCount (h : Str → Nat) (infos : containermountmap) (identity : Nat) : Nat :=
  (holders h infos identity).length

/-- Modelled from the spec: the registry operation `addClaims(containerId, descriptors)`,
which installs the descriptor set of the container and fails (`none`) if the container
already has an entry. -/
def addClaims (infos : containermountmap) (containerId : ContainerID)
    (descriptors : List ExternalMount) : Option containermountmap :=
  if (claims infos containerId).isEmpty then
    some (infos ++ descriptors.map (fun em => (containerId, em)))
  else
    none

/-- Modelled from the spec: the registry operation `removeClaims(containerId)`, which
removes and returns the descriptors of the container; for an unknown container nothing
is removed and the empty list is returned. -/
def removeClaims (infos : containermountmap) (containerId : ContainerID) :
    containermountmap × List ExternalMount :=
  (infos.filter (fun e => !decide (e.1 = containerId)), claims infos containerId)

/-- The state of a `LibstorageIsolator` together with the call log of the mount tool. -/
structure LibstorageIsolator where
  infos : containermountmap
  calls : List ExecCall
deriving DecidableEq, Repr

/-- The isolator at start: empty registry, no call made. -/
def LibstorageIsolator.init : LibstorageIsolator :=
  { infos := [], calls := [] }

/-- Modelled from the spec: the failures `prepare` returns, a failed invocation of the
external tool or a container that already has an entry. -/
inductive Failure where
  | ExternalToolFailure
  | AlreadyClaimed
deriving DecidableEq, Repr

/-- Modelled from the spec: steps 1 to 3 of `LibstorageIsolator::prepare` (the header
only declares it). The descriptors are processed in order; for one whose identity has no
holder in the registry the tool is invoked, and the loop stops at the first mount that
fails; one whose identity has a holder is skipped. Returned: the call log, the
descriptors mounted by this call in the order they were mounted, and whether every
mount succeeded. -/
def mountRequested (h : Str → Nat) (tool : MountTool) (infos : containermountmap) :
    List ExternalMount → List ExecCall → List ExternalMount →
      List ExecCall × List ExternalMount × Bool
  | [], calls, mounted => (calls, mounted, true)
  | em :: rest, calls, mounted =>
    if holderCount h infos (getExternalMountId h em) = 0 then
      if (mount tool calls em).2.isEmpty then
        ((mount tool calls em).1, mounted, false)
      else
        mountRequested h tool infos rest (mount tool calls em).1 (mounted ++ [em])
    else
      mountRequested h tool infos rest calls mounted

/-- Modelled from the spec: the loop of `revertMountlist`. `unmount` is invoked on each
descriptor of a list, in the order of the list, whatever the outcome of each call. -/
def unmountEach (tool : MountTool) : List ExternalMount → List ExecCall → List ExecCall
  | [], calls => calls
  | em :: rest, calls => unmountEach tool rest (unmount tool calls em).1

/-- Modelled from the spec: the body of `LibstorageIsolator::revertMountlist` (the header
only declares it). `unmount` is invoked on every descriptor mounted earlier in the same
call, in reverse order, and the failure of the prepare is returned. -/
def revertMountlist (tool : MountTool) (mounts : List ExternalMount)
    (calls : List ExecCall) : List ExecCall × Failure :=
  (unmountEach tool mounts.reverse calls, Failure.ExternalToolFailure)

/-- Modelled from the spec: the body of `LibstorageIsolator::prepare` (the header only
declares it), from the descriptors the sanitizer produced for the container. When a
mount fails the mounts of this call are reverted and the prepare fails, the registry
being untouched; when every mount succeeded `addClaims` is called once with the whole
descriptor set. When `addClaims` fails, because the container already has an entry, the
prepare fails and the mounts of this call are reverted in the same way, which keeps the
guarantee of the coordinator that a container ends up with every requested volume
mounted and claimed, or with none of them. -/
def prepare (h : Str → Nat) (tool : MountTool) (self : LibstorageIsolator)
    (containerId : ContainerID) (descriptors : List ExternalMount) :
    LibstorageIsolator × Except Failure Unit :=
  match mountRequested h tool self.infos descriptors self.calls [] with
  | (calls, mounted, false) =>
    ({ infos := self.infos, calls := (revertMountlist tool mounted calls).1 },
      Except.error (revertMountlist tool mounted calls).2)
  | (calls, mounted, true) =>
    match addClaims self.infos containerId descriptors with
    | some infos => ({ infos := infos, calls := calls }, Except.ok ())
    | none =>
      ({ infos := self.infos, calls := (revertMountlist tool mounted calls).1 },
        Except.error Failure.AlreadyClaimed)

/-- Modelled from the spec: the unmount step of `cleanup` for the descriptors of the
container, in order. The tool is invoked for a descriptor whose identity has exactly one
holder in the registry, and a failure of the tool is ignored. -/
def unmountLast (h : Str → Nat) (tool : MountTool) (infos : containermountmap) :
    List ExternalMount → List ExecCall → List ExecCall
  | [], calls => calls
  | em :: rest, calls =>
    if holderCount h infos (getExternalMountId h em) = 1 then
      unmountLast h tool infos rest (unmount tool calls em).1
    else
      unmountLast h tool infos rest calls

/-- Modelled from the spec: the body of `LibstorageIsolator::cleanup` (the header only
declares it). The descriptors of the container are looked up, the holders of each
identity are counted in the registry as it is (this container included), the unmount
tool is invoked where the count is exactly 1, and the entry of the container is removed;
the call always succeeds. -/
def cleanup (h : Str → Nat) (tool : MountTool) (self : LibstorageIsolator)
    (containerId : ContainerID) : LibstorageIsolator × Except Failure Unit :=
  ({ infos := (removeClaims self.infos containerId).1,
     calls := unmountLast h tool self.infos (claims self.infos containerId) self.calls },
    Except.ok ())

/-- The calls in the log for a list of descriptors each mounted with success, in order. -/
def mountedCalls (ems : List ExternalMount) : List ExecCall :=
  ems.map (fun em => ExecCall.mount em true)

/-- The descriptors of a list whose identity has no holder in the registry: those for
which `prepare` invokes the mount tool. -/
def unheld (h : Str → Nat) (infos : containermountmap) (ems : List ExternalMount) :
    List ExternalMount :=
  ems.filter (fun em => decide (holderCount h infos (getExternalMountId h em) = 0))

/-- A descriptor of the driver `rexray` with the given container and volume name. -/
def rexrayVolume (containerId : ContainerID) (volumeName : Str) : ExternalMount :=
  { containerid := containerId, volumedriver := ['r', 'e', 'x', 'r', 'a', 'y'],
    volumename := volumeName, mountpoint := REXRAY_MOUNT_PREFIX ++ volumeName,
    options := ['o'], container_path := ['/', 'd'] }

/-- A tool that mounts every volume but the one named `bad`, and always unmounts. -/
def toolFailingOnBad : MountTool :=
  { mountOk := fun _ em => decide (em.volumename ≠ ['b', 'a', 'd'])
    unmountOk := fun _ _ => true }

/-- A state in which container `B` holds the volume `s`, mounted for it. -/
def stateWithB : LibstorageIsolator :=
  { infos := [(['B'], rexrayVolume ['B'] ['s'])],
    calls := [ExecCall.mount (rexrayVolume ['B'] ['s']) true] }

/-! ## Properties of the Builder -/

theorem Builder.get_call (b : Builder) (c : SetterCall) (f : Field) :
    (b.call c).get f = if c.field = f then c.arg else b.get f := by
  cases c <;> cases f <;> rfl

theorem Builder.get_calls (b : Builder) (cs : List SetterCall) (f : Field) :
    (b.calls cs).get f = (lastArg f cs).getD (b.get f) := by
  induction cs using List.reverseRecOn with
  | nil => rfl
  | append_singleton cs c ih =>
    have hstep : b.calls (cs ++ [c]) = (b.calls cs).call c := by
      simp [Builder.calls, List.foldl_append]
    rw [hstep, Builder.get_call]
    by_cases hf : c.field = f
    · simp [lastArg, List.filter_append, hf]
    · simp [lastArg, List.filter_append, hf] at ih ⊢
      exact ih

theorem Builder.build_get (b : Builder) (f : Field) : (b.build).2.get f = b.get f := by
  cases f <;> rfl

theorem ExternalMount.allNonEmpty_iff (m : ExternalMount) :
    m.allNonEmpty = true ↔ ∀ f : Field, m.get f ≠ [] := by
  constructor
  · intro h f
    simp [ExternalMount.allNonEmpty, List.isEmpty_iff] at h
    obtain ⟨⟨⟨⟨⟨h1, h2⟩, h3⟩, h4⟩, h5⟩, h6⟩ := h
    cases f <;> assumption
  · intro h
    simp only [ExternalMount.allNonEmpty, Bool.and_eq_true, Bool.not_eq_true',
      List.isEmpty_eq_false]
    exact ⟨⟨⟨⟨⟨h .containerId, h .volumeDriver⟩, h .volumeName⟩, h .mountPoint⟩,
      h .options⟩, h .containerPath⟩

/-- C9: for every sequence of setter calls on a fresh Builder, each field of the built
descriptor is the argument of the last call of that field's setter, or the empty string
when the setter was never called; a setter call sets its own field to its argument and
leaves the other five alone; calls of setters of different fields commute; `build` leaves
the Builder as it was, so building twice in a row gives equal descriptors. -/
theorem build_returns_last_set_values :
    (∀ (cs : List SetterCall) (f : Field),
      ((Builder.init.calls cs).build).2.get f = (lastArg f cs).getD []) ∧
    (∀ (b : Builder) (c : SetterCall),
      (b.call c).get c.field = c.arg ∧ ∀ f : Field, f ≠ c.field → (b.call c).get f = b.get f) ∧
    (∀ (b : Builder) (c₁ c₂ : SetterCall),
      c₁.field ≠ c₂.field → (b.call c₁).call c₂ = (b.call c₂).call c₁) ∧
    (∀ b : Builder, (b.build).1 = b ∧ ((b.build).1.build).2 = (b.build).2) := by
  refine ⟨?_, ?_, ?_, ?_⟩
  · intro cs f
    rw [Builder.build_get, Builder.get_calls]
    cases f <;> rfl
  · intro b c
    refine ⟨by simp [Builder.get_call], ?_⟩
    intro f hf
    rw [Builder.get_call, if_neg (fun h => hf h.symm)]
  · intro b c₁ c₂ hne
    cases c₁ <;> cases c₂ <;> first
      | exact absurd rfl hne
      | rfl
  · intro b
    exact ⟨rfl, rfl⟩

/-- C8, counterexample: a Builder on which no setter was called builds a descriptor
whose six fields are all empty, so the built descriptor need not have non-empty
fields. -/
theorem build_without_setters_is_empty :
    ((Builder.init.calls []).build).2 =
      { containerid := [], volumedriver := [], volumename := [], mountpoint := [],
        options := [], container_path := [] } ∧
    ((Builder.init.calls []).build).2.allNonEmpty = false := by
  exact ⟨rfl, rfl⟩

/-- C8, amended: for every sequence of setter calls on a fresh Builder, the six fields
of the built descriptor are all non-empty exactly when, for each of the six fields, its
setter was called and the last such call had a non-empty argument. -/
theorem build_allNonEmpty_iff (cs : List SetterCall) :
    ((Builder.init.calls cs).build).2.allNonEmpty = true ↔
      ∀ f : Field, ∃ v : Str, lastArg f cs = some v ∧ v ≠ [] := by
  rw [ExternalMount.allNonEmpty_iff]
  have hget : ∀ f : Field,
      ((Builder.init.calls cs).build).2.get f = (lastArg f cs).getD [] := by
    intro f
    rw [Builder.build_get, Builder.get_calls]
    cases f <;> rfl
  constructor
  · intro h f
    have hf := h f
    rw [hget f] at hf
    cases hl : lastArg f cs with
    | none => rw [hl] at hf; exact absurd rfl hf
    | some v => rw [hl] at hf; exact ⟨v, rfl, hf⟩
  · intro h f
    obtain ⟨v, hv, hne⟩ := h f
    rw [hget f, hv]
    exact hne

/-! ## Properties of the mount identity -/

theorem hashWord_lt (h : Str → Nat) (s : Str) : hashWord h s < 2 ^ 64 :=
  Nat.mod_lt _ (Nat.two_pow_pos 64)

theorem hash_combine_impl_lt {seed : Nat} (hs : seed < 2 ^ 64) (value : Nat) :
    hash_combine_impl seed value < 2 ^ 64 :=
  Nat.xor_lt_two_pow hs (Nat.mod_lt _ (Nat.two_pow_pos 64))

theorem hash_combine_impl_inj (seed : Nat) {x y : Nat} (hx : x < 2 ^ 64) (hy : y < 2 ^ 64)
    (hxy : hash_combine_impl seed x = hash_combine_impl seed y) : x = y := by
  unfold hash_combine_impl at hxy
  have hmod := Nat.xor_right_injective hxy
  simp only at hmod
  omega

theorem add_word_cancel (t k : Nat) (ht : t < 2 ^ 64) :
    ((t + (2 ^ 64 - k % 2 ^ 64)) % 2 ^ 64 + k) % 2 ^ 64 = t := by
  omega

theorem hash_combine_impl_surj (seed : Nat) {y : Nat} (hy : y < 2 ^ 64)
    (hs : seed < 2 ^ 64) : ∃ x, x < 2 ^ 64 ∧ hash_combine_impl seed x = y := by
  have ht : seed ^^^ y < 2 ^ 64 := Nat.xor_lt_two_pow hs hy
  refine ⟨((seed ^^^ y) + (2 ^ 64 - (0x9e3779b9 + (seed <<< 6) % 2 ^ 64 + (seed >>> 2)) % 2 ^ 64))
      % 2 ^ 64, Nat.mod_lt _ (Nat.two_pow_pos 64), ?_⟩
  unfold hash_combine_impl
  have key := add_word_cancel (seed ^^^ y)
    (0x9e3779b9 + (seed <<< 6) % 2 ^ 64 + (seed >>> 2)) ht
  rw [Nat.add_assoc _ 0x9e3779b9, Nat.add_assoc _ (0x9e3779b9 + _), key, ← Nat.xor_assoc,
    Nat.xor_self, Nat.zero_xor]

theorem getExternalMountId_eq (h : Str → Nat) (em : ExternalMount) :
    getExternalMountId h em =
      hash_combine_impl (hash_combine_impl 0 (hashWord h (to_lower_copy em.volumedriver)))
        (hashWord h (to_lower_copy em.volumename)) := rfl

theorem getExternalMountId_lt (h : Str → Nat) (em : ExternalMount) :
    getExternalMountId h em < 2 ^ 64 := by
  rw [getExternalMountId_eq]
  exact hash_combine_impl_lt (hash_combine_impl_lt (Nat.two_pow_pos 64) _) _

/-- C1: `getExternalMountId` is case-insensitive: two descriptors whose volume drivers
are equal after lowercasing and whose volume names are equal after lowercasing get the
same identity, whatever the string hash is. -/
theorem getExternalMountId_case_insensitive (h : Str → Nat) (a b : ExternalMount)
    (hdriver : to_lower_copy a.volumedriver = to_lower_copy b.volumedriver)
    (hname : to_lower_copy a.volumename = to_lower_copy b.volumename) :
    getExternalMountId h a = getExternalMountId h b := by
  simp only [getExternalMountId, hdriver, hname]

/-- C1, witness: `RexRay`/`Vol1` and `rexray`/`VOL1` lowercase to the same pair and get
the same identity. -/
theorem getExternalMountId_case_insensitive_witness :
    to_lower_copy ['R', 'e', 'x', 'R', 'a', 'y'] = to_lower_copy ['r', 'e', 'x', 'r', 'a', 'y'] ∧
    to_lower_copy ['V', 'o', 'l', '1'] = to_lower_copy ['V', 'O', 'L', '1'] ∧
    ['V', 'o', 'l', '1'] ≠ ['V', 'O', 'L', '1'] ∧
    getExternalMountId List.length
        ⟨['c', '1'], ['R', 'e', 'x', 'R', 'a', 'y'], ['V', 'o', 'l', '1'], [], [], []⟩ =
      getExternalMountId List.length
        ⟨['c', '2'], ['r', 'e', 'x', 'r', 'a', 'y'], ['V', 'O', 'L', '1'], [], [], []⟩ :=
  ⟨by decide, by decide, by decide,
    getExternalMountId_case_insensitive List.length
      ⟨['c', '1'], ['R', 'e', 'x', 'R', 'a', 'y'], ['V', 'o', 'l', '1'], [], [], []⟩
      ⟨['c', '2'], ['r', 'e', 'x', 'r', 'a', 'y'], ['V', 'O', 'L', '1'], [], [], []⟩
      (by decide) (by decide)⟩

/-- C2: the identity depends on `volumedriver` and `volumename` only: two descriptors
that agree on these two fields get the same identity whatever their container id, mount
point, options and container path are, and evaluating the identity of one descriptor
twice gives the same value. -/
theorem getExternalMountId_depends_on_driver_and_name (h : Str → Nat) (a b : ExternalMount)
    (hdriver : a.volumedriver = b.volumedriver) (hname : a.volumename = b.volumename) :
    getExternalMountId h a = getExternalMountId h b ∧
    getExternalMountId h a =
      getExternalMountId h
        { containerid := [], volumedriver := a.volumedriver, volumename := a.volumename,
          mountpoint := [], options := [], container_path := [] } ∧
    (∀ first second : Nat, first = getExternalMountId h a → second = getExternalMountId h a →
      first = second) := by
  refine ⟨?_, rfl, ?_⟩
  · simp only [getExternalMountId, hdriver, hname]
  · intro first second h1 h2
    rw [h1, h2]

/-- C2, witness: two descriptors of different containers, with different mount points,
options and container paths but the same driver and name, get the same identity. -/
theorem getExternalMountId_depends_on_driver_and_name_witness :
    getExternalMountId List.length
        ⟨['c', '1'], ['r', 'e', 'x'], ['d', 'b', '1'], ['/', 'a'], ['x'], ['/', 'p']⟩ =
      getExternalMountId List.length
        ⟨['c', '2'], ['r', 'e', 'x'], ['d', 'b', '1'], ['/', 'b'], ['y'], ['/', 'q']⟩ :=
  (getExternalMountId_depends_on_driver_and_name List.length
    ⟨['c', '1'], ['r', 'e', 'x'], ['d', 'b', '1'], ['/', 'a'], ['x'], ['/', 'p']⟩
    ⟨['c', '2'], ['r', 'e', 'x'], ['d', 'b', '1'], ['/', 'b'], ['y'], ['/', 'q']⟩
    rfl rfl).1

/-- C10: with `hash_combine` as `seed ^= h(v) + 0x9e3779b9 + (seed << 6) + (seed >> 2)`
on 64-bit words and any string hash `h`, two descriptors whose lowercased drivers are
equal have equal identities exactly when the 64-bit hashes of their lowercased names are
equal; the second combine step, from the seed left by the driver, is a bijection of the
64-bit words. -/
theorem getExternalMountId_eq_iff_name_hash_eq (h : Str → Nat) (a b : ExternalMount)
    (hdriver : to_lower_copy a.volumedriver = to_lower_copy b.volumedriver) :
    (getExternalMountId h a = getExternalMountId h b ↔
      hashWord h (to_lower_copy a.volumename) = hashWord h (to_lower_copy b.volumename)) ∧
    Set.BijOn (hash_combine_impl (hash_combine h 0 (to_lower_copy a.volumedriver)))
      {x | x < 2 ^ 64} {y | y < 2 ^ 64} := by
  have hseed : hash_combine h 0 (to_lower_copy a.volumedriver) < 2 ^ 64 :=
    hash_combine_impl_lt (Nat.two_pow_pos 64) _
  refine ⟨⟨?_, ?_⟩, ?_, ?_, ?_⟩
  · intro hid
    rw [getExternalMountId_eq, getExternalMountId_eq, hdriver] at hid
    exact hash_combine_impl_inj _ (hashWord_lt h _) (hashWord_lt h _) hid
  · intro hname
    rw [getExternalMountId_eq, getExternalMountId_eq, hdriver, hname]
  · intro x _
    exact hash_combine_impl_lt hseed x
  · intro x hx y hy hxy
    exact hash_combine_impl_inj _ hx hy hxy
  · intro y hy
    obtain ⟨x, hx, hxy⟩ := hash_combine_impl_surj _ hy hseed
    exact ⟨x, hx, hxy⟩

/-- C10, witness: with the length as string hash, the drivers `REX` and `rex` lowercase
to the same string, and the identities of `REX`/`ab` and `rex`/`cd` are equal because
the two names have the same hash. -/
theorem getExternalMountId_eq_iff_name_hash_eq_witness :
    to_lower_copy ['R', 'E', 'X'] = to_lower_copy ['r', 'e', 'x'] ∧
    (getExternalMountId List.length ⟨[], ['R', 'E', 'X'], ['a', 'b'], [], [], []⟩ =
        getExternalMountId List.length ⟨[], ['r', 'e', 'x'], ['c', 'd'], [], [], []⟩ ↔
      hashWord List.length (to_lower_copy ['a', 'b']) =
        hashWord List.length (to_lower_copy ['c', 'd'])) :=
  ⟨by decide,
    (getExternalMountId_eq_iff_name_hash_eq List.length
      ⟨[], ['R', 'E', 'X'], ['a', 'b'], [], [], []⟩
      ⟨[], ['r', 'e', 'x'], ['c', 'd'], [], [], []⟩ (by decide)).1⟩

theorem to_lower_copy_length (s : Str) : (to_lower_copy s).length = s.length := by
  simp [to_lower_copy]

/-- C3, counterexample: whatever the string hash is, the identity is not injective on
lowercased (driver, name) pairs: there is no hash for which equal identities force equal
lowercased drivers and equal lowercased names, since the identity is a 64-bit word and
the names are unboundedly many. -/
theorem getExternalMountId_not_injective :
    ¬ ∃ h : Str → Nat, ∀ a b : ExternalMount,
      getExternalMountId h a = getExternalMountId h b →
        to_lower_copy a.volumedriver = to_lower_copy b.volumedriver ∧
        to_lower_copy a.volumename = to_lower_copy b.volumename := by
  rintro ⟨h, hinj⟩
  let f : ℕ → Fin (2 ^ 64) := fun n =>
    ⟨getExternalMountId h ⟨[], [], List.replicate n 'a', [], [], []⟩,
      getExternalMountId_lt h _⟩
  apply not_injective_infinite_finite f
  intro n m hnm
  have hid : getExternalMountId h ⟨[], [], List.replicate n 'a', [], [], []⟩ =
      getExternalMountId h ⟨[], [], List.replicate m 'a', [], [], []⟩ :=
    congrArg Fin.val hnm
  have hlen := congrArg List.length (hinj _ _ hid).2
  simpa [to_lower_copy_length] using hlen

/-- C3, amended: when two descriptors have the same identity and the 64-bit hashes of
their lowercased drivers are equal, the 64-bit hashes of their lowercased names are
equal; so a collision between such descriptors with different lowercased names is a
collision of the string hash on the names. -/
theorem getExternalMountId_collision_is_name_hash_collision (h : Str → Nat)
    (a b : ExternalMount) (hid : getExternalMountId h a = getExternalMountId h b)
    (hdriver : hashWord h (to_lower_copy a.volumedriver) =
      hashWord h (to_lower_copy b.volumedriver)) :
    hashWord h (to_lower_copy a.volumename) = hashWord h (to_lower_copy b.volumename) ∧
    (to_lower_copy a.volumename ≠ to_lower_copy b.volumename →
      ∃ s t : Str, s ≠ t ∧ hashWord h s = hashWord h t) := by
  rw [getExternalMountId_eq, getExternalMountId_eq, hdriver] at hid
  have hname := hash_combine_impl_inj _ (hashWord_lt h _) (hashWord_lt h _) hid
  exact ⟨hname, fun hne => ⟨_, _, hne, hname⟩⟩

/-- C3, witness: with the length as string hash, `rex`/`ab` and `REX`/`cd` have the
same identity and the same driver hash, and the names `ab` and `cd` have the same
hash. -/
theorem getExternalMountId_collision_is_name_hash_collision_witness :
    getExternalMountId List.length ⟨[], ['r', 'e', 'x'], ['a', 'b'], [], [], []⟩ =
      getExternalMountId List.length ⟨[], ['R', 'E', 'X'], ['c', 'd'], [], [], []⟩ ∧
    hashWord List.length (to_lower_copy ['a', 'b']) =
      hashWord List.length (to_lower_copy ['c', 'd']) :=
  ⟨by decide,
    (getExternalMountId_collision_is_name_hash_collision List.length
      ⟨[], ['r', 'e', 'x'], ['a', 'b'], [], [], []⟩
      ⟨[], ['R', 'E', 'X'], ['c', 'd'], [], [], []⟩ (by decide) (by decide)).1⟩

/-! ## Properties of the prohibited characters -/

theorem containsProhibitedChars_iff (s : Str) :
    containsProhibitedChars s = true ↔ ∃ c ∈ s, c ∈ prohibitedchars := by
  simp [containsProhibitedChars, List.any_eq_true]

theorem not_prohibited_of_plain (c : Char)
    (hc : c.isAlphanum = true ∨ c = '-' ∨ c = '_' ∨ c = '.') : c ∉ prohibitedchars := by
  intro hmem
  have hcases : ∀ p ∈ prohibitedchars,
      ¬ (p.isAlphanum = true ∨ p = '-' ∨ p = '_' ∨ p = '.') := by decide
  exact hcases c hmem hc

/-- C7: `containsProhibitedChars` returns true exactly for the strings that contain at
least one character of the table; the table has `NUM_PROHIBITED = 26` entries, pairwise
distinct, which are the characters with codes 37 `%`, 47 `/`, 58 `:`, 59 `;`, 0 NUL,
60 `<`, 62 `>`, 124 `|`, 96 backtick, 36 `$`, 39 single quote, 63 `?`, 94 `^`, 38 `&`,
32 space, 123 and 125 the braces, 34 double quote, 91 `[`, 93 `]`, 10 newline, 9 tab,
11 vertical tab, 8 backspace, 13 carriage return and 92 backslash; a string containing
`;` or `$` is reported, and a string of letters, digits, `-`, `_` and `.` is not. -/
theorem containsProhibitedChars_spec :
    (∀ s : Str, containsProhibitedChars s = true ↔ ∃ c ∈ s, c ∈ prohibitedchars) ∧
    prohibitedchars.length = NUM_PROHIBITED ∧ NUM_PROHIBITED = 26 ∧
    prohibitedchars.Nodup ∧
    prohibitedchars.map Char.toNat =
      [37, 47, 58, 59, 0, 60, 62, 124, 96, 36, 39, 63, 94, 38, 32, 123, 34, 125, 91, 93,
       10, 9, 11, 8, 13, 92] ∧
    (∀ s : Str, ';' ∈ s → containsProhibitedChars s = true) ∧
    (∀ s : Str, '$' ∈ s → containsProhibitedChars s = true) ∧
    (∀ s : Str, (∀ c ∈ s, c.isAlphanum = true ∨ c = '-' ∨ c = '_' ∨ c = '.') →
      containsProhibitedChars s = false) := by
  refine ⟨containsProhibitedChars_iff, by decide, rfl, by decide, by decide, ?_, ?_, ?_⟩
  · intro s hs
    exact (containsProhibitedChars_iff s).2 ⟨';', hs, by decide⟩
  · intro s hs
    exact (containsProhibitedChars_iff s).2 ⟨'$', hs, by decide⟩
  · intro s hs
    rw [Bool.eq_false_iff]
    intro hcon
    obtain ⟨c, hc, hmem⟩ := (containsProhibitedChars_iff s).1 hcon
    exact not_prohibited_of_plain c (hs c hc) hmem

/-! ## Properties of the registry -/

theorem mem_claims {infos : containermountmap} {c : ContainerID} {em : ExternalMount} :
    em ∈ claims infos c ↔ (c, em) ∈ infos := by
  simp only [claims, List.mem_map, List.mem_filter, decide_eq_true_eq]
  constructor
  · rintro ⟨⟨k, v⟩, ⟨hmem, hk⟩, hv⟩
    simp only at hk hv
    subst hk hv
    exact hmem
  · intro hmem
    exact ⟨(c, em), ⟨hmem, rfl⟩, rfl⟩

theorem mem_holders {h : Str → Nat} {infos : containermountmap} {x : Nat} {c : ContainerID} :
    c ∈ holders h infos x ↔ ∃ em, (c, em) ∈ infos ∧ getExternalMountId h em = x := by
  simp only [holders, List.mem_dedup, List.mem_map, List.mem_filter, decide_eq_true_eq]
  constructor
  · rintro ⟨⟨k, v⟩, ⟨hmem, hid⟩, hk⟩
    simp only at hk hid
    subst hk
    exact ⟨v, hmem, hid⟩
  · rintro ⟨em, hmem, hid⟩
    exact ⟨(c, em), ⟨hmem, hid⟩, rfl⟩

theorem holderCount_eq_one_iff {h : Str → Nat} {infos : containermountmap} {x : Nat}
    {c : ContainerID} (hc : c ∈ holders h infos x) :
    holderCount h infos x = 1 ↔
      ∀ c' em, (c', em) ∈ infos → getExternalMountId h em = x → c' = c := by
  have hnd : (holders h infos x).Nodup := List.nodup_dedup _
  constructor
  · intro h1 c' em hmem hid
    obtain ⟨a, ha⟩ := List.length_eq_one.1 h1
    have hc' : c' ∈ holders h infos x := mem_holders.2 ⟨em, hmem, hid⟩
    rw [ha] at hc hc'
    rw [List.mem_singleton] at hc hc'
    rw [hc, hc']
  · intro hall
    have hall' : ∀ c' ∈ holders h infos x, c' = c := by
      intro c' hc'
      obtain ⟨em, hmem, hid⟩ := mem_holders.1 hc'
      exact hall c' em hmem hid
    unfold holderCount
    generalize holders h infos x = l at hc hnd hall'
    match l, hc, hnd, hall' with
    | a :: t, _, hnd, hall' =>
      cases t with
      | nil => rfl
      | cons b t =>
        have ha : a = c := hall' a (List.mem_cons_self _ _)
        have hb : b = c := hall' b (List.mem_cons_of_mem _ (List.mem_cons_self _ _))
        have hnot : a ∉ b :: t := (List.nodup_cons.1 hnd).1
        exact absurd (by rw [ha, hb]; exact List.mem_cons_self _ _) hnot

theorem claims_removeClaims_self (infos : containermountmap) (c : ContainerID) :
    claims (removeClaims infos c).1 c = [] := by
  simp [claims, removeClaims, List.filter_filter]

theorem claims_removeClaims_other (infos : containermountmap) {c c' : ContainerID}
    (hne : c' ≠ c) : claims (removeClaims infos c).1 c' = claims infos c' := by
  simp only [claims, removeClaims, List.filter_filter]
  congr 1
  apply List.filter_congr
  intro e _
  by_cases he : e.1 = c'
  · simp [he, hne]
  · simp [he]

theorem removeClaims_of_no_entry {infos : containermountmap} {c : ContainerID}
    (hno : claims infos c = []) : (removeClaims infos c).1 = infos := by
  simp only [removeClaims]
  rw [List.filter_eq_self]
  intro e he
  by_contra hk
  simp only [Bool.not_eq_true', decide_eq_false_iff_not, not_not] at hk
  have hmem : e.2 ∈ claims infos c := by
    apply mem_claims.2
    rw [← hk]
    exact he
  rw [hno] at hmem
  exact absurd hmem (List.not_mem_nil _)

theorem unmountEach_calls (tool : MountTool) (ems : List ExternalMount)
    (calls : List ExecCall) :
    ∃ U, unmountEach tool ems calls = calls ++ U ∧ (∀ e ∈ U, e.isUnmount = true) ∧
      U.map ExecCall.descriptor = ems := by
  induction ems generalizing calls with
  | nil => exact ⟨[], by simp [unmountEach]⟩
  | cons em rest ih =>
    obtain ⟨U, hU, hall, hmap⟩ := ih (unmount tool calls em).1
    refine ⟨ExecCall.unmount em (tool.unmountOk calls em) :: U, ?_, ?_, ?_⟩
    · rw [unmountEach, hU]
      simp [unmount]
    · intro e he
      rcases List.mem_cons.1 he with rfl | he
      · rfl
      · exact hall e he
    · simp [hmap, ExecCall.descriptor]

theorem unmountLast_calls (h : Str → Nat) (tool : MountTool) (infos : containermountmap)
    (ems : List ExternalMount) (calls : List ExecCall) :
    ∃ U, unmountLast h tool infos ems calls = calls ++ U ∧ (∀ e ∈ U, e.isUnmount = true) ∧
      U.map ExecCall.descriptor =
        ems.filter (fun em => decide (holderCount h infos (getExternalMountId h em) = 1)) := by
  induction ems generalizing calls with
  | nil => exact ⟨[], by simp [unmountLast]⟩
  | cons em rest ih =>
    by_cases h1 : holderCount h infos (getExternalMountId h em) = 1
    · obtain ⟨U, hU, hall, hmap⟩ := ih (unmount tool calls em).1
      refine ⟨ExecCall.unmount em (tool.unmountOk calls em) :: U, ?_, ?_, ?_⟩
      · rw [unmountLast, if_pos h1, hU]
        simp [unmount]
      · intro e he
        rcases List.mem_cons.1 he with rfl | he
        · rfl
        · exact hall e he
      · simp [hmap, ExecCall.descriptor, h1]
    · obtain ⟨U, hU, hall, hmap⟩ := ih calls
      refine ⟨U, ?_, hall, ?_⟩
      · rw [unmountLast, if_neg h1, hU]
      · simp [hmap, h1]

/-- C6: `cleanup` of a container invokes the unmount tool, and nothing else, for exactly
those of its descriptors whose identity has holder count 1 in the registry, which for a
descriptor the container holds means that every holder of the identity is this
container; afterwards the container has no entry, whatever the tool answered, the
entries of every other container are as before, the call succeeds, and for a container
with no entry nothing changes at all. -/
theorem cleanup_unmounts_last_holder_only (h : Str → Nat) (tool : MountTool)
    (st : LibstorageIsolator) (c : ContainerID) :
    (∃ U, (cleanup h tool st c).1.calls = st.calls ++ U ∧
      (∀ e ∈ U, e.isUnmount = true) ∧
      U.map ExecCall.descriptor = (claims st.infos c).filter
        (fun em => decide (holderCount h st.infos (getExternalMountId h em) = 1))) ∧
    (∀ em ∈ claims st.infos c,
      (holderCount h st.infos (getExternalMountId h em) = 1 ↔
        ∀ c' em', (c', em') ∈ st.infos →
          getExternalMountId h em' = getExternalMountId h em → c' = c)) ∧
    claims (cleanup h tool st c).1.infos c = [] ∧
    (∀ c', c' ≠ c → claims (cleanup h tool st c).1.infos c' = claims st.infos c') ∧
    (cleanup h tool st c).2 = Except.ok () ∧
    (claims st.infos c = [] → (cleanup h tool st c).1 = st) := by
  refine ⟨unmountLast_calls h tool st.infos _ st.calls, ?_, claims_removeClaims_self _ _,
    fun c' hne => claims_removeClaims_other _ hne, rfl, ?_⟩
  · intro em hem
    exact holderCount_eq_one_iff (mem_holders.2 ⟨em, mem_claims.1 hem, rfl⟩)
  · intro hno
    simp only [cleanup, removeClaims_of_no_entry hno, hno, unmountLast]

/-! ## Properties of prepare -/

theorem mount_fst (tool : MountTool) (calls : List ExecCall) (em : ExternalMount) :
    (mount tool calls em).1 = calls ++ [ExecCall.mount em (tool.mountOk calls em)] := by
  unfold mount
  by_cases hok : tool.mountOk calls em = true
  · simp [hok]
  · simp [hok]

theorem mount_snd_isEmpty (tool : MountTool) (calls : List ExecCall) (em : ExternalMount) :
    (mount tool calls em).2.isEmpty = !tool.mountOk calls em := by
  unfold mount
  by_cases hok : tool.mountOk calls em = true
  · have hpre : REXRAY_MOUNT_PREFIX ++ em.volumename ≠ [] := by
      intro hnil
      have hlen := congrArg List.length hnil
      have h24 : REXRAY_MOUNT_PREFIX.length = 24 := by decide
      simp [h24] at hlen
    simp [hok, List.isEmpty_iff, hpre]
  · simp [hok]

theorem unheld_cons_pos {h : Str → Nat} {infos : containermountmap} {em : ExternalMount}
    (rest : List ExternalMount) (hz : holderCount h infos (getExternalMountId h em) = 0) :
    unheld h infos (em :: rest) = em :: unheld h infos rest := by
  simp [unheld, hz]

theorem unheld_cons_neg {h : Str → Nat} {infos : containermountmap} {em : ExternalMount}
    (rest : List ExternalMount) (hz : ¬ holderCount h infos (getExternalMountId h em) = 0) :
    unheld h infos (em :: rest) = unheld h infos rest := by
  simp [unheld, hz]

theorem mem_unheld {h : Str → Nat} {infos : containermountmap} {ems : List ExternalMount}
    {em : ExternalMount} :
    em ∈ unheld h infos ems ↔ em ∈ ems ∧ holderCount h infos (getExternalMountId h em) = 0 := by
  simp [unheld, List.mem_filter]

theorem mountRequested_fail (h : Str → Nat) (tool : MountTool) (infos : containermountmap)
    (pre : List ExternalMount) (dk : ExternalMount) (post : List ExternalMount) :
    ∀ (calls : List ExecCall) (mounted : List ExternalMount),
    (∀ p₁ d p₂, pre = p₁ ++ d :: p₂ → holderCount h infos (getExternalMountId h d) = 0 →
      tool.mountOk (calls ++ mountedCalls (unheld h infos p₁)) d = true) →
    holderCount h infos (getExternalMountId h dk) = 0 →
    tool.mountOk (calls ++ mountedCalls (unheld h infos pre)) dk = false →
    mountRequested h tool infos (pre ++ dk :: post) calls mounted =
      (calls ++ mountedCalls (unheld h infos pre) ++ [ExecCall.mount dk false],
        mounted ++ unheld h infos pre, false) := by
  induction pre with
  | nil =>
    intro calls mounted _ hk hfail
    have hfail' : tool.mountOk calls dk = false := by
      simpa [unheld, mountedCalls] using hfail
    simp [mountRequested, hk, mount_snd_isEmpty, mount_fst, hfail', unheld, mountedCalls]
  | cons d pre ih =>
    intro calls mounted hpre hk hfail
    by_cases hz : holderCount h infos (getExternalMountId h d) = 0
    · have hok : tool.mountOk calls d = true := by
        have := hpre [] d pre rfl hz
        simpa [unheld, mountedCalls] using this
      have hrec := ih (calls ++ [ExecCall.mount d true]) (mounted ++ [d])
        (by
          intro p₁ e p₂ hp he
          have := hpre (d :: p₁) e p₂ (by rw [hp]; rfl) he
          rw [unheld_cons_pos _ hz] at this
          simpa [mountedCalls] using this)
        hk
        (by
          rw [unheld_cons_pos _ hz] at hfail
          simpa [mountedCalls] using hfail)
      rw [List.cons_append, mountRequested, if_pos hz, mount_snd_isEmpty, mount_fst, hok]
      simp only [Bool.not_true, Bool.false_eq_true, if_false]
      rw [hrec, unheld_cons_pos _ hz]
      simp [mountedCalls]
    · have hrec := ih calls mounted
        (by
          intro p₁ e p₂ hp he
          have := hpre (d :: p₁) e p₂ (by rw [hp]; rfl) he
          rw [unheld_cons_neg _ hz] at this
          exact this)
        hk
        (by
          rw [unheld_cons_neg _ hz] at hfail
          exact hfail)
      rw [List.cons_append, mountRequested, if_neg hz, hrec, unheld_cons_neg _ hz]

/-- C4: if in `prepare` of a container with descriptors `pre ++ dk :: post` every mount
attempted for `pre` succeeds and the mount of `dk` is attempted and fails, then the
calls made are the successful mounts of the unheld descriptors of `pre`, the failed
mount of `dk`, and then unmount calls only, on exactly the descriptors mounted by this
call in reverse order, none of which is a descriptor skipped for having a holder;
`prepare` fails with the tool failure, and the registry is unchanged, so a container
without an entry still has none. -/
theorem prepare_all_or_nothing (h : Str → Nat) (tool : MountTool) (st : LibstorageIsolator)
    (c : ContainerID) (pre : List ExternalMount) (dk : ExternalMount)
    (post : List ExternalMount)
    (hpre : ∀ p₁ d p₂, pre = p₁ ++ d :: p₂ →
      holderCount h st.infos (getExternalMountId h d) = 0 →
      tool.mountOk (st.calls ++ mountedCalls (unheld h st.infos p₁)) d = true)
    (hk : holderCount h st.infos (getExternalMountId h dk) = 0)
    (hfail : tool.mountOk (st.calls ++ mountedCalls (unheld h st.infos pre)) dk = false) :
    (prepare h tool st c (pre ++ dk :: post)).2 = Except.error Failure.ExternalToolFailure ∧
    (prepare h tool st c (pre ++ dk :: post)).1.infos = st.infos ∧
    (claims st.infos c = [] →
      claims (prepare h tool st c (pre ++ dk :: post)).1.infos c = []) ∧
    ∃ U, (prepare h tool st c (pre ++ dk :: post)).1.calls =
        st.calls ++ mountedCalls (unheld h st.infos pre) ++ [ExecCall.mount dk false] ++ U ∧
      (∀ e ∈ U, e.isUnmount = true) ∧
      U.map ExecCall.descriptor = (unheld h st.infos pre).reverse ∧
      (∀ e ∈ U, e.descriptor ∈ pre ∧
        holderCount h st.infos (getExternalMountId h e.descriptor) = 0) := by
  have hloop := mountRequested_fail h tool st.infos pre dk post st.calls [] hpre hk hfail
  have hprep : prepare h tool st c (pre ++ dk :: post) =
      ({ infos := st.infos,
         calls := unmountEach tool (unheld h st.infos pre).reverse
           (st.calls ++ mountedCalls (unheld h st.infos pre) ++ [ExecCall.mount dk false]) },
        Except.error Failure.ExternalToolFailure) := by
    simp [prepare, hloop, revertMountlist]
  rw [hprep]
  refine ⟨rfl, rfl, fun hno => hno, ?_⟩
  obtain ⟨U, hU, hall, hmap⟩ := unmountEach_calls tool (unheld h st.infos pre).reverse
    (st.calls ++ mountedCalls (unheld h st.infos pre) ++ [ExecCall.mount dk false])
  refine ⟨U, hU, hall, hmap, ?_⟩
  intro e he
  have hmem : e.descriptor ∈ (unheld h st.infos pre).reverse := by
    rw [← hmap]
    exact List.mem_map_of_mem _ he
  exact mem_unheld.1 (List.mem_reverse.1 hmem)

/-- C4, witness: container `A` asks for the volumes `s` (held by `B`, so skipped), `db`
(mounted), `bad` (its mount fails) and `zzzz`; the prepare fails, the registry is the
one before the call and `A` has no entry. -/
theorem prepare_all_or_nothing_witness :
    (prepare List.length toolFailingOnBad stateWithB ['A']
      ([rexrayVolume ['A'] ['s'], rexrayVolume ['A'] ['d', 'b']] ++
        rexrayVolume ['A'] ['b', 'a', 'd'] :: [rexrayVolume ['A'] ['z', 'z', 'z', 'z']])).2 =
      Except.error Failure.ExternalToolFailure ∧
    (prepare List.length toolFailingOnBad stateWithB ['A']
      ([rexrayVolume ['A'] ['s'], rexrayVolume ['A'] ['d', 'b']] ++
        rexrayVolume ['A'] ['b', 'a', 'd'] :: [rexrayVolume ['A'] ['z', 'z', 'z', 'z']])).1.infos =
      stateWithB.infos ∧
    claims (prepare List.length toolFailingOnBad stateWithB ['A']
      ([rexrayVolume ['A'] ['s'], rexrayVolume ['A'] ['d', 'b']] ++
        rexrayVolume ['A'] ['b', 'a', 'd'] :: [rexrayVolume ['A'] ['z', 'z', 'z', 'z']])).1.infos
      ['A'] = [] ∧
    unheld List.length stateWithB.infos
      [rexrayVolume ['A'] ['s'], rexrayVolume ['A'] ['d', 'b']] = [rexrayVolume ['A'] ['d', 'b']] :=
  have key := prepare_all_or_nothing List.length toolFailingOnBad stateWithB ['A']
    [rexrayVolume ['A'] ['s'], rexrayVolume ['A'] ['d', 'b']]
    (rexrayVolume ['A'] ['b', 'a', 'd']) [rexrayVolume ['A'] ['z', 'z', 'z', 'z']]
    (by
      intro p₁ d p₂ hp _
      have hd : d ∈ [rexrayVolume ['A'] ['s'], rexrayVolume ['A'] ['d', 'b']] := by
        rw [hp]
        exact List.mem_append_right _ (List.mem_cons_self _ _)
      simp only [List.mem_cons, List.mem_singleton, List.not_mem_nil, or_false] at hd
      rcases hd with rfl | rfl <;> rfl)
    (by decide) (by decide)
  ⟨key.1, key.2.1, key.2.2.1 (by decide), by decide⟩

/-! ## The call log and the reference-counting invariant -/

end Libstorage
